import Mathlib

/-!
# Verification of the DamnWidget/cbor core against its specification

Shallow embedding of the CBOR parser/decoder and composer/encoder pipeline
of the Go repository `DamnWidget/cbor`.  Bytes are modelled as `Nat` values
below 256, byte streams as `List Nat`, Go's `error` returns and recovered
panics as `Except Err`, and `math/big` integers as `Int`/`ℚ`.  Each
definition is translated from one Go function, named after it; the source
file is cited in the doc comment.
-/

namespace Cbor

/-- Error taxonomy.  Each constructor stands for one concrete error value
produced by the Go code: `shortRead`, `badIndefinite` and `badInfo` are the
`ParserErr` values built by `NewParseErr` in `maps.go`; `eof` is `io.EOF`
surfaced by an empty read; `canonicalSmallUint` is the `CanonicalModeError`
of `composer.composeUint8`; the `strict*` constructors are the
`StrictModeError` values of the struct/map decoders; `typeMismatch` and
`unknownInfo` are the errors of `Decoder.checkTypes`; the remaining
constructors model errors raised (as recovered panics) inside the decoder
helpers. -/
inductive Err where
  | shortRead (want got : Nat)
  | eof
  | badIndefinite (major : Nat)
  | badInfo (info : Nat)
  | canonicalSmallUint (i : Nat)
  | strictDupKey (key : List Nat)
  | strictUnknownKey (key : List Nat)
  | strictLenMismatch (nf nlen : Nat)
  | strictRtLenMismatch (nf i : Nat)
  | typeMismatch (major info : Nat)
  | unknownInfo (major info : Nat)
  | nonStringKey (major : Nat)
  | expectedBytes (major : Nat)
  | notTwoElementArray
  | badExponent (major : Nat)
  | badMantissa (major : Nat)
  | zeroDenominator
  | nilPtrPanic
  | readOutOfBounds (n avail : Nat)
  | fuelExhausted
  | unsupportedValue
  | invalidEpoch (major : Nat)
deriving DecidableEq, Repr

/-- Classifies the errors that are `ParserErr` values (`maps.go`,
`NewParseErr`): a short read, a wrong indefinite major, or an invalid
additional-info value. -/
def Err.isParse : Err → Bool
  | .shortRead _ _ => true
  | .badIndefinite _ => true
  | .badInfo _ => true
  | _ => false

/-- State of `Parser` (`maps.go`): the most recent header byte, the
remaining bytes of the `io.Reader`, the indefinite flag, the internal
scratch buffer and the read offset inside it. -/
structure Parser where
  header : Nat := 0
  input : List Nat := []
  indefinite : Bool := false
  buf : List Nat := []
  off : Nat := 0
deriving DecidableEq, Repr

/-- `Parser.scan` (`maps.go`): reads `n` bytes from the reader.  A zero
request returns immediately without touching the source; an empty source
surfaces `io.EOF`; a partial read yields the `ParserErr` short-read error;
a full read resets the buffer offset to zero. -/
def Parser.scan (p : Parser) (n : Nat) : Except Err (List Nat × Parser) :=
  if n = 0 then .ok ([], p)
  else if p.input.length = 0 then .error .eof
  else if p.input.length < n then .error (.shortRead n p.input.length)
  else .ok (p.input.take n, { p with input := p.input.drop n, off := 0 })

/-- `Parser.scan1` (`maps.go`): reads a single byte from the reader. -/
def Parser.scan1 (p : Parser) : Except Err (Nat × Parser) := do
  let (d, p) ← p.scan 1
  .ok (d.headD 0, p)

/-- `Parser.parseHeader` (`maps.go`): splits the header byte into its major
type (top three bits) and additional info (bottom five bits). -/
def Parser.parseHeader (p : Parser) : Nat × Nat :=
  (p.header / 32, p.header % 32)

/-- `Parser.isBreak` (`maps.go`): the most recent header byte is the break
opcode `0xFF`. -/
def Parser.isBreak (p : Parser) : Bool := p.header = 0xff

/-- `Parser.isNil` (`maps.go`): the header byte is the null opcode `0xF6`. -/
def Parser.isNil (p : Parser) : Bool := p.header = 0xf6

/-- `Parser.isUndef` (`maps.go`): the header byte is the undefined opcode
`0xF7`. -/
def Parser.isUndef (p : Parser) : Bool := p.header = 0xf7

/-- `Parser.parseTagInformation` (`maps.go`): the body is an unimplemented
`TODO` stub; it returns the zero values `(0, 0)` with a nil error and does
not touch the parser state. -/
def Parser.parseTagInformation (p : Parser) (_infotype : Nat) :
    Except Err (Nat × Nat × Parser) :=
  .ok (0, 0, p)

/-- `Parser.parseInformation` (`maps.go`): reads the header byte of the
next data item, splits it into major and additional info, fills the
scratch buffer (inline value or 1/2/4/8 argument bytes) and flags
indefinite items.  Major 6 with non-inline info is routed to the
`parseTagInformation` stub before the `28..30` rejection check. -/
def Parser.parseInformation (p : Parser) : Except Err (Nat × Nat × Parser) := do
  let (h, p) ← p.scan1
  let p := { p with header := h }
  let major := h / 32
  let infotype := h % 32
  if infotype ≤ 23 then
    .ok (major, infotype, { p with buf := [infotype] })
  else if infotype = 31 then
    if major < 2 ∨ (major > 5 ∧ major ≠ 7) then
      .error (.badIndefinite major)
    else
      .ok (major, 31, { p with indefinite := true })
  else if major = 6 then
    p.parseTagInformation infotype
  else if 28 ≤ infotype ∧ infotype ≤ 30 then
    .error (.badInfo infotype)
  else do
    let (d, p) ← p.scan (2 ^ (infotype - 24))
    .ok (major, infotype, { p with buf := d })

/-- `Parser.read` (`maps.go`): consumes `n` bytes from the scratch buffer
at the current offset; the Go code panics when fewer are available, which
the surrounding `Decode` recovers into an error. -/
def Parser.read (p : Parser) (n : Nat) : Except Err (List Nat × Parser) :=
  let a := p.buf.length - p.off
  if a < n then .error (.readOutOfBounds n a)
  else .ok ((p.buf.drop p.off).take n, { p with off := p.off + n })

/-- Big-endian unsigned value of a byte list, as computed by
`binary.BigEndian.UintN` and by `big.Int.SetBytes`. -/
def beVal (l : List Nat) : Nat := l.foldl (fun a b => a * 256 + b) 0

/-- `Parser.buflen` (`maps.go`): the unsigned argument encoded in the
scratch buffer: the inline info value when `info ≤ 23`, otherwise the
big-endian value of the 1/2/4/8 buffered bytes (via `parseUintN`, which
advances the buffer offset); any other buffer length leaves the zero
value. -/
def Parser.buflen (p : Parser) : Except Err (Nat × Parser) :=
  let info := p.header % 32
  if info ≤ 23 then .ok (info, p)
  else if p.buf.length = 1 then do
    let (d, p) ← p.read 1
    .ok (beVal d, p)
  else if p.buf.length = 2 then do
    let (d, p) ← p.read 2
    .ok (beVal d, p)
  else if p.buf.length = 4 then do
    let (d, p) ← p.read 4
    .ok (beVal d, p)
  else if p.buf.length = 8 then do
    let (d, p) ← p.read 8
    .ok (beVal d, p)
  else .ok (0, p)

/-! ## Composer (`composer.go`) -/

/-- Flags of the `composer` struct (`composer.go`): canonical and strict
modes; the output writer is modelled by returning the emitted bytes. -/
structure ComposerSt where
  canonical : Bool := false
  strict : Bool := false
deriving DecidableEq, Repr

/-- Minimal big-endian byte representation of a natural number, as
returned by Go's `big.Int.Bytes` (empty for zero, no leading zero
bytes). -/
def natBytesBE (n : Nat) : List Nat :=
  if h : n = 0 then []
  else natBytesBE (n / 256) ++ [n % 256]
decreasing_by exact Nat.div_lt_self (Nat.pos_of_ne_zero h) (by norm_num)

/-- Big-endian bytes of a 16-bit value, as written by
`composer.composeUint16`. -/
def be2 (i : Nat) : List Nat := [i / 256 % 256, i % 256]

/-- Big-endian bytes of a 32-bit value, as written by
`composer.composeUint32`. -/
def be4 (i : Nat) : List Nat :=
  [i / 16777216 % 256, i / 65536 % 256, i / 256 % 256, i % 256]

/-- Big-endian bytes of a 64-bit value, as written by
`composer.composeUint64` and `composer.composeFloat64`. -/
def be8 (i : Nat) : List Nat :=
  [i / 72057594037927936 % 256, i / 281474976710656 % 256,
   i / 1099511627776 % 256, i / 4294967296 % 256,
   i / 16777216 % 256, i / 65536 % 256, i / 256 % 256, i % 256]

/-- `composer.composeUint8` (`composer.go`): refuses any value below 24
with a `CanonicalModeError` — the check does not consult the composer's
canonical flag — and otherwise writes the single byte. -/
def ComposerSt.composeUint8 (_c : ComposerSt) (i : Nat) : Except Err (List Nat) :=
  if i < 24 then .error (.canonicalSmallUint i)
  else .ok [i % 256]

/-- `composer.composeUint` (`composer.go`): writes the header byte for
major `t` with the narrowest argument width for `i`, then the argument
bytes (the one-byte case goes through `composeUint8`). -/
def ComposerSt.composeUint (c : ComposerSt) (i : Nat) (t : Nat := 0) :
    Except Err (List Nat) :=
  if i < 24 then .ok [t * 32 + i]
  else if i ≤ 0xff then do
    let b ← c.composeUint8 i
    .ok ((t * 32 + 24) :: b)
  else if i ≤ 0xffff then .ok ((t * 32 + 25) :: be2 i)
  else if i ≤ 0xffffffff then .ok ((t * 32 + 26) :: be4 i)
  else .ok ((t * 32 + 27) :: be8 i)

/-- `composer.composeInt` (`composer.go`): a negative value is emitted as
major 1 with the bitwise complement `^i = -1 - i` as unsigned argument;
a non-negative value as major 0. -/
def ComposerSt.composeInt (c : ComposerSt) (i : Int) : Except Err (List Nat) :=
  if i < 0 then c.composeUint (-1 - i).toNat 1
  else c.composeUint i.toNat 0

/-- `composer.composeBytes` (`composer.go`): writes the length argument
for major `m` (byte string by default) followed by the payload bytes. -/
def ComposerSt.composeBytes (c : ComposerSt) (b : List Nat) (m : Nat := 2) :
    Except Err (List Nat) := do
  let h ← c.composeUint b.length m
  .ok (h ++ b)

/-- `composer.composeBigUint` (`composer.go`): writes the raw tag byte
`0xC2` and then the big-endian bytes of the (non-negative) big integer as
a byte string. -/
def ComposerSt.composeBigUint (c : ComposerSt) (n : Int) : Except Err (List Nat) := do
  let bs ← c.composeBytes (natBytesBE n.natAbs)
  .ok (0xc2 :: bs)

/-- Decrements the last byte of a list modulo 256 (Go's `buf[len(buf)-1]--`
on a `byte` wraps `0x00` to `0xFF` without borrowing into earlier
bytes). -/
def byteDecLast : List Nat → List Nat
  | [] => []
  | [x] => [(x + 255) % 256]
  | x :: y :: xs => x :: byteDecLast (y :: xs)

/-- `composer.composeBigInt` (`composer.go`): writes the raw tag byte
`0xC3`, takes the big-endian bytes of `|n|`, decrements only the final
byte (wrapping, no borrow), and writes the result as a byte string.  For
a zero big integer the Go code indexes `buf[-1]` and panics. -/
def ComposerSt.composeBigInt (c : ComposerSt) (n : Int) : Except Err (List Nat) :=
  match natBytesBE n.natAbs with
  | [] => .error .nilPtrPanic
  | b :: bs => do
    let out ← c.composeBytes (byteDecLast (b :: bs))
    .ok (0xc3 :: out)

/-- `composer.composeFloat64` (`composer.go`): writes the double-precision
header byte `0xFB` followed by the eight big-endian bytes of the IEEE-754
bit pattern (the bit pattern is taken as input; the model performs no
float arithmetic). -/
def ComposerSt.composeFloat64 (_c : ComposerSt) (bits : Nat) : Except Err (List Nat) :=
  .ok (0xfb :: be8 bits)

/-- `composer.composeBigFloat` (`composer.go`): writes the raw bytes
`0xC5 0x82`, then the integer exponent, then the mantissa as a float64
item.  The Go code first converts the rational with `r.Float64()` and
splits it with `math.Frexp`; those host-float steps are inputs here:
`fe` is the Frexp exponent and `fmBits` the IEEE-754 bit pattern of the
Frexp mantissa. -/
def ComposerSt.composeBigFloat (c : ComposerSt) (fe : Int) (fmBits : Nat) :
    Except Err (List Nat) := do
  let eb ← c.composeInt fe
  let mb ← c.composeFloat64 fmBits
  .ok (0xc5 :: 0x82 :: (eb ++ mb))

/-- `composer.composeCanonicalNaN` (`composer.go`): the fixed half-precision
NaN bytes. -/
def composeCanonicalNaN : List Nat := [0xf9, 0x7e, 0x00]

/-- `composer.composeCanonicalInfinity` (`composer.go`): the fixed
half-precision infinity bytes, with the sign bit set when the variadic
`neg` argument is passed as true (callers that omit it get the positive
pattern). -/
def composeCanonicalInfinity (neg : Bool := false) : List Nat :=
  if neg then [0xf9, 0xfc, 0x00] else [0xf9, 0x7c, 0x00]

/-- `composer.composeNaN` (`composer.go`): single-precision NaN bytes. -/
def composeNaN : List Nat := [0xfa, 0x7f, 0xc0, 0x00, 0x00]

/-- `composer.composeInfinity` (`composer.go`): single-precision infinity
bytes, negative pattern when `neg` is passed as true. -/
def composeInfinity (neg : Bool := false) : List Nat :=
  if neg then [0xfa, 0xff, 0x80, 0x00, 0x00] else [0xfa, 0x7f, 0x80, 0x00, 0x00]

/-- `composer.composeDoublePrecissionNaN` (`composer.go`). -/
def composeDoublePrecissionNaN : List Nat :=
  [0xfb, 0x7f, 0xf8, 0x00, 0x00, 0x00, 0x00, 0x00, 0x00]

/-- `composer.composeDoublePrecissionInfinity` (`composer.go`). -/
def composeDoublePrecissionInfinity (neg : Bool := false) : List Nat :=
  if neg then [0xfb, 0xff, 0xf0, 0x00, 0x00, 0x00, 0x00, 0x00, 0x00]
  else [0xfb, 0x7f, 0xf0, 0x00, 0x00, 0x00, 0x00, 0x00, 0x00]

/-- `floatEncoder.encodeNewInfinity` (`encoder.go`): in canonical mode the
canonical infinity helper is invoked with no sign argument; otherwise the
width selects the 16/32/64-bit pattern, again never passing the sign.
`negInput` is the sign of the float value being encoded; the Go code never
consults it on this path. -/
def encodeNewInfinity (bits : Nat) (c : ComposerSt) (_negInput : Bool) :
    Except Err (List Nat) :=
  if c.canonical then .ok (composeCanonicalInfinity)
  else if bits = 16 then .ok (composeCanonicalInfinity)
  else if bits = 32 then .ok (composeInfinity)
  else if bits = 64 then .ok (composeDoublePrecissionInfinity)
  else .error .unsupportedValue

/-- `floatEncoder.encodeNewNaN` (`encoder.go`): canonical mode emits the
canonical NaN; otherwise the width selects the 16/32/64-bit pattern. -/
def encodeNewNaN (bits : Nat) (c : ComposerSt) : Except Err (List Nat) :=
  if c.canonical then .ok composeCanonicalNaN
  else if bits = 16 then .ok composeCanonicalNaN
  else if bits = 32 then .ok composeNaN
  else if bits = 64 then .ok composeDoublePrecissionNaN
  else .error .unsupportedValue

/-! ## Decoder type checking (`maps.go` type map, `part_005` `checkTypes`) -/

/-- Shallow model of the Go `reflect.Type` values that the decoder's type
check manipulates (`byte` is an alias of `uint8` in Go, so the `cborNC`
row's first entry is `uint8`). -/
inductive GoType where
  | uint8 | uint16 | uint32 | uint64
  | int8 | int16 | int32 | int64
  | float16 | float32 | float64
  | bytes | str | bool | iface
  | bigInt | bigRat | timeT | urlT | regexpT | structT | mapT
  | reflectValue
  | ptr (t : GoType)
deriving DecidableEq, Repr

/-- `expectedTypesMap` (`maps.go`): the static table from (major,
additional info) to the expected destination type. -/
def expectedTypesMap (major info : Nat) : Option GoType :=
  if major = 0 then
    if info = 24 then some .uint8
    else if info = 25 then some .uint16
    else if info = 26 then some .uint32
    else if info = 27 then some .uint64
    else none
  else if major = 1 then
    if info = 24 then some .int8
    else if info = 25 then some .int16
    else if info = 26 then some .int32
    else if info = 27 then some .int64
    else none
  else if major = 2 then
    if info = 24 ∨ info = 25 ∨ info = 26 ∨ info = 27 then some .bytes
    else none
  else if major = 3 then
    if info = 23 ∨ info = 24 ∨ info = 25 ∨ info = 26 ∨ info = 27 then some .str
    else none
  else if major = 7 then
    if info = 24 then some .uint8
    else if info = 25 then some .float16
    else if info = 26 then some .float32
    else if info = 27 then some .float64
    else none
  else none

/-- `Decoder.checkTypes` (`part_005`): tags, arrays, maps and
`reflect.Value` destinations are exempt; otherwise the expected type is
taken from `expectedTypesMap` with fallbacks for inline and indefinite
info values (the major-0 fallback already wraps in a pointer), then the
result is unconditionally wrapped in a pointer once more and compared to
the destination type.  Major 1 with an inline argument leaves a nil
expected type and the subsequent `reflect.PtrTo` call panics. -/
def checkTypes (t : GoType) (major info : Nat) : Except Err Unit := do
  if major = 6 ∨ major = 4 ∨ major = 5 ∨ t = .reflectValue then
    return ()
  let e : GoType ←
    match expectedTypesMap major info with
    | some e => pure e
    | none =>
      if major = 0 then
        if info ≤ 23 then pure (.ptr .uint8)
        else .error (.unknownInfo major info)
      else if major = 2 then
        if info ≤ 23 ∨ info = 31 then pure .bytes
        else .error (.unknownInfo major info)
      else if major = 3 then
        if info ≤ 23 ∨ info = 31 then pure .str
        else .error (.unknownInfo major info)
      else if major = 7 then
        if info = 20 ∨ info = 21 then pure .bool
        else if info = 22 ∨ info = 23 then pure .iface
        else .error (.unknownInfo major info)
      else .error .nilPtrPanic
  if GoType.ptr e ≠ t then .error (.typeMismatch major info)
  else return ()

/-! ## Decoder value readers (`part_005`) -/

/-- `Decoder.decodeUint` (`part_005`): the unsigned argument of the
current item. -/
def Parser.decodeUint (p : Parser) : Except Err (Nat × Parser) := p.buflen

/-- `Decoder.decodeInt` (`part_005`): the bitwise complement
`^int64(buflen)` of the argument, i.e. `-1 - buflen`, regardless of the
item's major type. -/
def Parser.decodeInt (p : Parser) : Except Err (Int × Parser) := do
  let (n, p) ← p.buflen
  .ok (-1 - (n : Int), p)

/-- `Decoder.decodeIndefiniteBytes` (`part_005`) with an explicit fuel
bound: collects definite-length chunks until a break header.  Each
iteration consumes at least one input byte, so the fuel used at the call
site (`input.length + 1`) can never run out; the fuel-exhausted branch is
unreachable. -/
def decodeIndefiniteBytesF : Nat → Parser → List Nat → Except Err (List Nat × Parser)
  | 0, _, _ => .error .fuelExhausted
  | fuel + 1, p, acc =>
    if p.isBreak then .ok (acc, p)
    else do
      let (n, p) ← p.buflen
      let (d, p) ← p.scan n
      let (_, _, p) ← p.parseInformation
      decodeIndefiniteBytesF fuel p (acc ++ d)

/-- `Decoder.decodeBytes` (`part_005`): nil/undefined headers yield an
empty result; a definite-length item scans `buflen` payload bytes; an
indefinite item collects chunks until break. -/
def decodeBytes (p : Parser) : Except Err (List Nat × Parser) :=
  let info := (p.parseHeader).2
  if p.isNil ∨ p.isUndef then .ok ([], p)
  else if info ≠ 31 then do
    let (n, p) ← p.buflen
    p.scan n
  else
    decodeIndefiniteBytesF (p.input.length + 1) p []

/-- `Decoder.decodePositiveBigNum` (`part_005`): parses the inner item,
requires a byte string, and returns its big-endian value
(`big.Int.SetBytes`). -/
def decodePositiveBigNum (p : Parser) : Except Err (Int × Parser) := do
  let (major, _, p) ← p.parseInformation
  if major ≠ 2 then .error (.expectedBytes major)
  else do
    let (d, p) ← decodeBytes p
    .ok ((beVal d : Int), p)

/-- `Decoder.decodeNegativeBigNum` (`part_005`): parses the inner item,
requires a byte string, and returns its big-endian value plus one. -/
def decodeNegativeBigNum (p : Parser) : Except Err (Int × Parser) := do
  let (major, _, p) ← p.parseInformation
  if major ≠ 2 then .error (.expectedBytes major)
  else do
    let (d, p) ← decodeBytes p
    .ok ((beVal d : Int) + 1, p)

/-- Result of `Decoder.decodeBigFloat` (`part_005`).  The bignum-mantissa
branch produces an exact rational through `bigFloatToRatFromBigInt`; the
int64-mantissa branches route through `bigFloatToRatFromInt64`
(`part_002`), which computes `float32(float64(m) * math.Pow(2, e))` — a
machine-float rounding kept symbolic here as the mantissa/exponent pair it
receives. -/
inductive BigFloatVal where
  | exact (q : ℚ)
  | roundedViaFloat32 (m e : Int)
deriving DecidableEq, Repr

/-- `bigFloatToRatFromBigInt` (`part_002`): builds the multiplier
`2 * |e|` (not `2 ^ |e|`) and returns `m / (2 * |e|)` via
`big.Rat.SetFrac`; a zero multiplier (exponent 0) makes `SetFrac` panic
with a division by zero.  (`math.Abs(float64(e))` is exact for every
`|e| < 2^53`, which covers all exponents reachable in this file.) -/
def bigFloatToRatFromBigInt (m : Int) (e : Int) : Except Err ℚ :=
  let multiplier : Int := 2 * (e.natAbs : Int)
  if multiplier = 0 then .error .zeroDenominator
  else .ok ((m : ℚ) / (multiplier : ℚ))

/-- `Decoder.decodeBigFloat` (`part_005`): requires an array header, reads
the exponent with `decodeInt` (complement semantics for every major), then
dispatches on the mantissa item: major 0/1 go to the float32-rounding
conversion, a tag goes through `decodePositiveBigNum` into the exact
conversion, and anything else that slipped through the guard reaches
`big.NewRat(0, 0)`, which panics. -/
def decodeBigFloat (p : Parser) : Except Err (BigFloatVal × Parser) := do
  let (major, _, p) ← p.parseInformation
  if major ≠ 4 then .error .notTwoElementArray
  else do
    let (major, _, p) ← p.parseInformation
    if major > 1 then .error (.badExponent major)
    else do
      let (e, p) ← p.decodeInt
      let (major2, info2, p) ← p.parseInformation
      if major2 > 1 ∧ (major2 ≠ 6 ∧ info2 ≠ 2) then .error (.badMantissa major2)
      else if major2 = 0 then do
        let (m, p) ← p.decodeUint
        .ok (.roundedViaFloat32 (m : Int) e, p)
      else if major2 = 1 then do
        let (m, p) ← p.decodeInt
        .ok (.roundedViaFloat32 m e, p)
      else if major2 = 6 then do
        let (m, p) ← decodePositiveBigNum p
        let q ← bigFloatToRatFromBigInt m e
        .ok (.exact q, p)
      else .error .zeroDenominator

/-! ## Typed `Decode` entry points (`part_005` `Decoder.Decode`) -/

/-- `Decoder.Decode` into a `*uint8` destination (`part_005`): parse the
header, run `checkTypes` against the destination type `*uint8`, then read
the one-byte argument with `decodeUint8`. -/
def DecodeUint8 (input : List Nat) : Except Err Nat := do
  let p : Parser := { input := input }
  let (major, info, p) ← p.parseInformation
  checkTypes (.ptr .uint8) major info
  let (d, _) ← p.read 1
  .ok (d.headD 0)

/-- `Decoder.Decode` into a `*big.Int` destination (`part_005`): after the
header parse and type check, the branch is chosen by the sign of the
value already stored in the destination — a negative prior value selects
`decodeNegativeBigNum` and negates the result, any other prior value
selects `decodePositiveBigNum`.  The tag id on the wire is never
consulted. -/
def DecodeBigInt (prior : Int) (input : List Nat) : Except Err Int := do
  let p : Parser := { input := input }
  let (major, info, p) ← p.parseInformation
  checkTypes (.ptr .bigInt) major info
  if prior < 0 then do
    let (n, _) ← decodeNegativeBigNum p
    .ok (-n)
  else do
    let (n, _) ← decodePositiveBigNum p
    .ok n

/-- `Decoder.Decode` into a `*big.Rat` destination (`part_005`): after the
header parse and type check, `decodeBigFloat` produces the rational. -/
def DecodeBigRat (input : List Nat) : Except Err BigFloatVal := do
  let p : Parser := { input := input }
  let (major, info, p) ← p.parseInformation
  checkTypes (.ptr .bigRat) major info
  let (v, _) ← decodeBigFloat p
  .ok v

/-! ## Record (struct) decoding (`part_007`)

The destination record is described by its list of exported field names
(as byte strings, Go strings being byte sequences); the claims under
verification concern records without `cbor` tag aliases, for which
`lookupStructTag` always returns the empty string and the alias lookup
never matches.  The per-field value decode `dec.decode(field)` is
reflection-dispatched in Go; it enters the model as the `decodeField`
parameter. -/

/-- `Decoder.decodeInner` (`part_007`) with an explicit fuel bound (each
iteration consumes at least one input byte, so the fuel supplied at the
call site cannot run out).  One iteration: stop when the remaining
definite length is zero; apply the `checkRtStructLength` overflow check;
parse the key header, stopping on a break inside an indefinite item;
reject non-string keys; run `decodeStructFieldKey` (strict mode fails on
a key already seen, then records the key); run `decodeStructFieldValue`
(a known field name parses the value header and decodes the field, an
unknown key fails in strict mode and is skipped otherwise). -/
def decodeInnerF (decodeField : List Nat → Parser → Except Err Parser)
    (strict : Bool) (fields : List (List Nat)) :
    Nat → Parser → List (List Nat) → Nat → Int → Nat → Except Err Parser
  | 0, _, _, _, _, _ => .error .fuelExhausted
  | fuel + 1, p, shown, i, length, nf =>
    if length = 0 ∧ ¬p.indefinite then .ok p
    else if i > nf then
      if strict then .error (.strictRtLenMismatch nf i)
      else if p.indefinite ∧ p.isBreak then .ok p
      else do
        let (_, _, p) ← p.parseInformation
        decodeInnerF decodeField strict fields fuel p shown (i + 1) (length - 1) nf
    else do
      let (major, _, p) ← p.parseInformation
      if p.indefinite ∧ p.isBreak then .ok p
      else if major < 2 ∨ major > 3 then .error (.nonStringKey major)
      else do
        let (key, p) ← decodeBytes p
        if strict ∧ key ∈ shown then .error (.strictDupKey key)
        else
          let shown' := if strict then key :: shown else shown
          if key ∈ fields then do
            let (_, _, p) ← p.parseInformation
            let p ← decodeField key p
            decodeInnerF decodeField strict fields fuel p shown' (i + 1) (length - 1) nf
          else if strict then .error (.strictUnknownKey key)
          else do
            let (_, _, p) ← p.parseInformation
            decodeInnerF decodeField strict fields fuel p shown' (i + 1) (length - 1) nf

/-- `Decoder.decodekStruct` (`part_007`): determines the wire shape from
the already-parsed header (map, or the legacy array shape for any other
major), runs `checkStructLength` (definite items: the pair count — or the
halved element count for arrays — must match the field count in strict
mode), then enters the `decodeInner` loop. -/
def decodekStruct (decodeField : List Nat → Parser → Except Err Parser)
    (strict : Bool) (fields : List (List Nat)) (p : Parser) :
    Except Err Parser := do
  let major := (p.parseHeader).1
  let array : Bool := major ≠ 5
  let (length, p) ←
    if p.indefinite = false then do
      let (l, p) ← p.buflen
      let nlen := if array then l / 2 else l
      if nlen ≠ fields.length ∧ strict then
        Except.error (.strictLenMismatch fields.length nlen)
      else Except.ok ((nlen : Int), p)
    else Except.ok ((0 : Int), p)
  decodeInnerF decodeField strict fields (p.input.length + 1) p [] 0 length
    fields.length

/-- `Decoder.Decode` into a record destination (`part_005` dispatch +
`part_007`): header parse, `checkTypes` (container majors are exempt),
the nil/undefined zeroing check of `Decoder.decode`, then
`decodekStruct`. -/
def DecodeStruct (decodeField : List Nat → Parser → Except Err Parser)
    (strict : Bool) (fields : List (List Nat)) (input : List Nat) :
    Except Err Parser := do
  let p : Parser := { input := input }
  let (major, info, p) ← p.parseInformation
  checkTypes (.ptr .structT) major info
  if p.isNil ∨ p.isUndef then .ok p
  else decodekStruct decodeField strict fields p

/-! ## Typed map decoding (`part_007`)

The destination is a map with string keys; only the key set matters for
the properties below, so the model tracks the list of keys present.  The
value decode is again a parameter. -/

/-- `Decoder.generateKeyValue` (`part_007`): parses the key header,
signals `io.EOF` on a break (ending an indefinite map), decodes the key
string, fails in strict mode when the key is already present in the map,
then parses and decodes the value and stores the entry. -/
def generateKeyValue (decodeVal : Parser → Except Err Parser) (strict : Bool)
    (m : List (List Nat)) (p : Parser) :
    Except Err (List (List Nat) × Parser) := do
  let (_, _, p) ← p.parseInformation
  if p.isBreak then .error .eof
  else do
    let (key, p) ← decodeBytes p
    if strict ∧ key ∈ m then .error (.strictDupKey key)
    else do
      let (_, _, p) ← p.parseInformation
      let p ← decodeVal p
      .ok ((if key ∈ m then m else m ++ [key]), p)

/-- Definite-length loop of `Decoder.decodekMap` (`part_007`): runs
`generateKeyValue` once per declared pair. -/
def decodekMapDefF (decodeVal : Parser → Except Err Parser) (strict : Bool) :
    Nat → List (List Nat) → Parser → Except Err (List (List Nat) × Parser)
  | 0, m, p => .ok (m, p)
  | k + 1, m, p => do
    let (m, p) ← generateKeyValue decodeVal strict m p
    decodekMapDefF decodeVal strict k m p

/-- Indefinite-length loop of `Decoder.decodekMap` (`part_007`), with a
fuel bound: repeats `generateKeyValue` until it signals `io.EOF`, which it
does exactly on a break header (making the Go code's re-check of
`isBreak` vacuous). -/
def decodekMapIndF (decodeVal : Parser → Except Err Parser) (strict : Bool) :
    Nat → List (List Nat) → Parser → Except Err (List (List Nat))
  | 0, _, _ => .error .fuelExhausted
  | fuel + 1, m, p =>
    match generateKeyValue decodeVal strict m p with
    | .ok (m, p) => decodekMapIndF decodeVal strict fuel m p
    | .error e => if e = .eof then .ok m else .error e

/-- `Decoder.decodekMap` (`part_007`): allocates the empty map, then runs
the definite loop `buflen` times or the indefinite loop until break. -/
def decodekMap (decodeVal : Parser → Except Err Parser) (strict : Bool)
    (p : Parser) : Except Err (List (List Nat)) :=
  let info := (p.parseHeader).2
  if info ≠ 31 then do
    let (l, p) ← p.buflen
    let (m, _) ← decodekMapDefF decodeVal strict l [] p
    .ok m
  else
    decodekMapIndF decodeVal strict (p.input.length + 1) [] p

/-- `Decoder.Decode` into a typed map destination (`part_005` dispatch +
`part_007`): header parse, `checkTypes` (major 5 is exempt), the
nil/undefined check, then `decodekMap`. -/
def DecodeMap (decodeVal : Parser → Except Err Parser) (strict : Bool)
    (input : List Nat) : Except Err (List (List Nat)) := do
  let p : Parser := { input := input }
  let (major, info, p) ← p.parseInformation
  checkTypes (.ptr .mapT) major info
  if p.isNil ∨ p.isUndef then .ok []
  else decodekMap decodeVal strict p

/-- Models `dec.decode(field)` for a field whose wire value is a single
atom byte (small unsigned integer, additional info ≤ 23): the reflection
handlers for such kinds read only the already-buffered argument and
consume no further input, always succeeding. -/
def atomFieldDecoder : List Nat → Parser → Except Err Parser :=
  fun _ p => .ok p

/-- Models `dec.decode(val)` for map values that are single atom bytes;
see `atomFieldDecoder`. -/
def atomValDecoder : Parser → Except Err Parser :=
  fun p => .ok p

/-! ## Wire construction helpers used by the theorems -/

/-- A definite-length text-string item with inline length: header
`0x60 + len` followed by the bytes (requires `len ≤ 23`). -/
def strItem (k : List Nat) : List Nat := (0x60 + k.length) :: k

/-- One key/value entry of a record or map wire: a text-string key
followed by a single atom value byte. -/
def kvEntry (e : List Nat × Nat) : List Nat := strItem e.1 ++ [e.2]

/-- A definite map wire with inline pair count. -/
def mapWire (entries : List (List Nat × Nat)) : List Nat :=
  (0xa0 + entries.length) :: (entries.map kvEntry).flatten

/-- A definite array wire in the legacy record shape (alternating keys
and values, element count twice the entry count). -/
def arrayWire (entries : List (List Nat × Nat)) : List Nat :=
  (0x80 + 2 * entries.length) :: (entries.map kvEntry).flatten

/-- An indefinite-length map wire: header `0xBF`, the key/value entries,
then the break byte `0xFF`. -/
def mapWireIndef (entries : List (List Nat × Nat)) : List Nat :=
  0xbf :: ((entries.map kvEntry).flatten ++ [0xff])

/-- An indefinite-length array wire in the legacy record shape: header
`0x9F`, alternating keys and values, then the break byte `0xFF`. -/
def arrayWireIndef (entries : List (List Nat × Nat)) : List Nat :=
  0x9f :: ((entries.map kvEntry).flatten ++ [0xff])

/-! # Theorems -/

/-- Parsing a header byte whose additional info is inline (`≤ 23`)
consumes exactly that byte and buffers the info value. -/
theorem parseInformation_inline (p : Parser) (h : Nat) (rest : List Nat)
    (hin : p.input = h :: rest) (hinfo : h % 32 ≤ 23) :
    p.parseInformation =
      .ok (h / 32, h % 32, ⟨h, rest, p.indefinite, [h % 32], 0⟩) := by
  simp only [Parser.parseInformation, Parser.scan1, Parser.scan, hin]
  simp [hinfo, Nat.lt_irrefl, bind, Except.bind]

/-- `buflen` on an inline-info header returns the info value without
touching the parser. -/
theorem buflen_inline (p : Parser) (hinfo : p.header % 32 ≤ 23) :
    p.buflen = .ok (p.header % 32, p) := by
  simp [Parser.buflen, hinfo]

/-- `scan` on an input that starts with exactly `n` known bytes. -/
theorem scan_exact (p : Parser) (n : Nat) (xs rest : List Nat)
    (hin : p.input = xs ++ rest) (hlen : xs.length = n) (hpos : 0 < n) :
    p.scan n = .ok (xs, { p with input := rest, off := 0 }) := by
  subst hlen
  simp only [Parser.scan, hin, List.length_append]
  rw [if_neg (by omega), if_neg (by omega), if_neg (by omega)]
  rw [List.take_left, List.drop_left]


/-- `decodeBytes` on a definite-length header with inline length `k`
(text or byte string, not nil/undefined) consumes exactly `k` payload
bytes. -/
theorem decodeBytes_definite (p : Parser) (k : Nat) (xs rest : List Nat)
    (hk : p.header % 32 = k) (hk23 : k ≤ 23)
    (h6 : p.header ≠ 0xf6) (h7 : p.header ≠ 0xf7)
    (hin : p.input = xs ++ rest) (hlen : xs.length = k) (hoff : p.off = 0) :
    decodeBytes p = .ok (xs, { p with input := rest }) := by
  have hinfo : (p.parseHeader).2 = k := hk
  simp only [decodeBytes, hinfo, Parser.isNil, Parser.isUndef]
  rw [if_neg (by simp [h6, h7]), if_pos (by omega)]
  rw [buflen_inline p (by omega)]
  simp only [hk, bind, Except.bind]
  rcases Nat.eq_zero_or_pos k with h0 | hpos
  · subst h0
    have hxs : xs = [] := List.eq_nil_of_length_eq_zero hlen
    subst hxs
    simp only [Parser.scan, if_pos rfl]
    simp at hin
    cases p
    simp_all
  · rw [scan_exact p k xs rest hin hlen hpos]
    cases p
    simp_all

/-- `decodePositiveBigNum` on a definite byte-string item with inline
length returns the big-endian value of the payload. -/
theorem decodePositiveBigNum_ok (p : Parser) (k : Nat) (xs rest : List Nat)
    (hk : k ≤ 23) (hin : p.input = (0x40 + k) :: (xs ++ rest))
    (hlen : xs.length = k) :
    decodePositiveBigNum p =
      .ok ((beVal xs : Int), ⟨0x40 + k, rest, p.indefinite, [k], 0⟩) := by
  simp only [decodePositiveBigNum]
  rw [parseInformation_inline p (0x40 + k) (xs ++ rest) hin (by omega)]
  have hmaj : (0x40 + k) / 32 = 2 := by omega
  have hmod : (0x40 + k) % 32 = k := by omega
  simp only [hmaj, hmod, bind, Except.bind]
  rw [if_neg (by omega)]
  rw [decodeBytes_definite _ k xs rest (by simpa using hmod) hk
    (by simp; omega) (by simp; omega) rfl hlen rfl]

/-- `decodeNegativeBigNum` on a definite byte-string item with inline
length returns the big-endian value of the payload plus one. -/
theorem decodeNegativeBigNum_ok (p : Parser) (k : Nat) (xs rest : List Nat)
    (hk : k ≤ 23) (hin : p.input = (0x40 + k) :: (xs ++ rest))
    (hlen : xs.length = k) :
    decodeNegativeBigNum p =
      .ok ((beVal xs : Int) + 1, ⟨0x40 + k, rest, p.indefinite, [k], 0⟩) := by
  simp only [decodeNegativeBigNum]
  rw [parseInformation_inline p (0x40 + k) (xs ++ rest) hin (by omega)]
  have hmaj : (0x40 + k) / 32 = 2 := by omega
  have hmod : (0x40 + k) % 32 = k := by omega
  simp only [hmaj, hmod, bind, Except.bind]
  rw [if_neg (by omega)]
  rw [decodeBytes_definite _ k xs rest (by simpa using hmod) hk
    (by simp; omega) (by simp; omega) rfl hlen rfl]

/-- In strict mode, when every wire key names a declared field but the
keys repeat (among themselves or against the already-seen set), the
`decodeInner` loop stops with the duplicated-key strict-mode error. -/
theorem decodeInnerF_dup (fields : List (List Nat)) :
    ∀ (entries : List (List Nat × Nat)) (fuel : Nat) (hdr : Nat)
      (buf0 : List Nat) (shown : List (List Nat)) (i nf : Nat),
      (∀ e ∈ entries, e.1.length ≤ 23 ∧ e.2 ≤ 23) →
      (∀ e ∈ entries, e.1 ∈ fields) →
      fuel ≥ entries.length + 1 →
      i + entries.length = nf →
      ¬ ((∀ x ∈ entries.map Prod.fst, x ∉ shown) ∧
          (entries.map Prod.fst).Nodup) →
      ∃ key, decodeInnerF atomFieldDecoder true fields fuel
          ⟨hdr, (entries.map kvEntry).flatten, false, buf0, 0⟩ shown i
          (entries.length : Int) nf = .error (.strictDupKey key)
  | [], fuel, hdr, buf0, shown, i, nf, hsz, hfld, hfuel, hnf, hdup => by
      simp at hdup
  | (k, v) :: rest, fuel, hdr, buf0, shown, i, nf, hsz, hfld, hfuel, hnf, hdup => by
      obtain ⟨f, rfl⟩ : ∃ f, fuel = f + 1 := ⟨fuel - 1, by simp at hfuel; omega⟩
      have hk23 : k.length ≤ 23 := (hsz (k, v) (by simp)).1
      have hv23 : v ≤ 23 := (hsz (k, v) (by simp)).2
      have hlen : ((k, v) :: rest).length = rest.length + 1 := rfl
      have hinlt : i < nf := by simp at hnf; omega
      simp only [List.map_cons, List.flatten_cons, kvEntry, strItem,
        List.cons_append, List.append_assoc, List.length_cons]
      simp only [decodeInnerF]
      rw [if_neg (by rintro ⟨h1, -⟩; omega)]
      rw [if_neg (by omega)]
      rw [parseInformation_inline _ (0x60 + k.length)
        (k ++ ([v] ++ (rest.map kvEntry).flatten)) rfl (by omega)]
      have hmaj : (0x60 + k.length) / 32 = 3 := by omega
      have hmod : (0x60 + k.length) % 32 = k.length := by omega
      simp only [bind, Except.bind, hmaj, hmod]
      rw [if_neg (by simp)]
      rw [if_neg (by omega)]
      rw [decodeBytes_definite _ k.length k ([v] ++ (rest.map kvEntry).flatten)
        (by simpa using hmod) hk23 (by simp; omega) (by simp; omega) rfl rfl rfl]
      simp only [bind, Except.bind]
      by_cases hmem : k ∈ shown
      · rw [if_pos ⟨trivial, hmem⟩]
        exact ⟨k, rfl⟩
      · rw [if_neg (by simp [hmem])]
        have hfd : k ∈ fields := hfld (k, v) (by simp)
        simp only [if_pos hfd, if_pos rfl]
        rw [List.singleton_append]
        rw [parseInformation_inline _ v (rest.map kvEntry).flatten rfl (by omega)]
        simp only [bind, Except.bind, atomFieldDecoder]
        have hcast : ((rest.length + 1 : Nat) : Int) - 1 = ((rest.length : Nat) : Int) := by
          push_cast; ring
        rw [hcast]
        apply decodeInnerF_dup fields rest f v [v % 32] (k :: shown) (i + 1) nf
        · exact fun e he => hsz e (by simp [he])
        · exact fun e he => hfld e (by simp [he])
        · simp at hfuel; omega
        · simp at hnf; omega
        · intro hcon
          apply hdup
          obtain ⟨hdisj, hnd⟩ := hcon
          constructor
          · intro x hx
            simp at hx
            rcases hx with rfl | hx
            · exact hmem
            · have := hdisj x (by simpa using hx)
              simp at this
              exact this.2
          · simp only [List.map_cons, List.nodup_cons]
            refine ⟨?_, hnd⟩
            intro hkmem
            have := hdisj k (by simpa using hkmem)
            simp at this

/-- In strict mode the definite-map loop stops with the duplicated-key
error as soon as a wire key repeats (among themselves or against the
already-present map keys). -/
theorem decodekMapDefF_dup :
    ∀ (entries : List (List Nat × Nat)) (hdr : Nat) (buf0 : List Nat)
      (m : List (List Nat)),
      (∀ e ∈ entries, e.1.length ≤ 23 ∧ e.2 ≤ 23) →
      ¬ ((∀ x ∈ entries.map Prod.fst, x ∉ m) ∧
          (entries.map Prod.fst).Nodup) →
      ∃ key, decodekMapDefF atomValDecoder true entries.length m
          ⟨hdr, (entries.map kvEntry).flatten, false, buf0, 0⟩ =
        .error (.strictDupKey key)
  | [], hdr, buf0, m, hsz, hdup => by simp at hdup
  | (k, v) :: rest, hdr, buf0, m, hsz, hdup => by
      have hk23 : k.length ≤ 23 := (hsz (k, v) (by simp)).1
      have hv23 : v ≤ 23 := (hsz (k, v) (by simp)).2
      simp only [List.map_cons, List.flatten_cons, kvEntry, strItem,
        List.cons_append, List.append_assoc, List.length_cons]
      simp only [decodekMapDefF, generateKeyValue]
      rw [parseInformation_inline _ (0x60 + k.length)
        (k ++ ([v] ++ (rest.map kvEntry).flatten)) rfl (by omega)]
      simp only [bind, Except.bind]
      rw [if_neg (by simp [Parser.isBreak]; omega)]
      have hmod : (0x60 + k.length) % 32 = k.length := by omega
      rw [decodeBytes_definite _ k.length k ([v] ++ (rest.map kvEntry).flatten)
        (by simpa using hmod) hk23 (by simp; omega) (by simp; omega) rfl rfl rfl]
      simp only [bind, Except.bind]
      by_cases hmem : k ∈ m
      · rw [if_pos ⟨trivial, hmem⟩]
        exact ⟨k, rfl⟩
      · rw [if_neg (by simp [hmem])]
        rw [List.singleton_append]
        rw [parseInformation_inline _ v (rest.map kvEntry).flatten rfl (by omega)]
        simp only [bind, Except.bind, atomValDecoder]
        rw [if_neg hmem]
        apply decodekMapDefF_dup rest v [v % 32] (m ++ [k])
        · exact fun e he => hsz e (by simp [he])
        · intro hcon
          apply hdup
          obtain ⟨hdisj, hnd⟩ := hcon
          constructor
          · intro x hx
            simp at hx
            rcases hx with rfl | hx
            · exact hmem
            · have := hdisj x (by simpa using hx)
              simp at this
              exact this.1
          · simp only [List.map_cons, List.nodup_cons]
            refine ⟨?_, hnd⟩
            intro hkmem
            have := hdisj k (by simpa using hkmem)
            simp at this

/-- Each serialized key/value entry contributes at least one byte, so an
entry list never outnumbers its wire bytes. -/
theorem kvEntry_flatten_length_ge (entries : List (List Nat × Nat)) :
    entries.length ≤ (entries.map kvEntry).flatten.length := by
  induction entries with
  | nil => simp
  | cons e rest ih =>
      simp only [List.map_cons, List.flatten_cons, List.length_append,
        List.length_cons]
      have h1 : 1 ≤ (kvEntry e).length := by simp [kvEntry, strItem]
      omega

/-- Strict decode of a definite map wire into a record fails with the
duplicated-key error whenever a key repeats (pair count matching the
field count, all keys naming fields). -/
theorem decodeStruct_mapWire_dup (fields : List (List Nat))
    (entries : List (List Nat × Nat))
    (hn : entries.length ≤ 23)
    (hsz : ∀ e ∈ entries, e.1.length ≤ 23 ∧ e.2 ≤ 23)
    (hfld : ∀ e ∈ entries, e.1 ∈ fields)
    (hcnt : entries.length = fields.length)
    (hdup : ¬ (entries.map Prod.fst).Nodup) :
    ∃ key, DecodeStruct atomFieldDecoder true fields (mapWire entries) =
      .error (.strictDupKey key) := by
  simp only [DecodeStruct, mapWire]
  rw [parseInformation_inline _ (0xa0 + entries.length)
    ((entries.map kvEntry).flatten) rfl (by omega)]
  have hmaj : (0xa0 + entries.length) / 32 = 5 := by omega
  have hmod : (0xa0 + entries.length) % 32 = entries.length := by omega
  simp only [bind, Except.bind, hmaj, hmod, checkTypes]
  rw [if_pos (by simp)]
  simp only [Parser.isNil, Parser.isUndef, pure, Except.pure]
  rw [if_neg (by simp; omega)]
  simp only [decodekStruct, Parser.parseHeader, hmaj, hmod, if_true]
  rw [buflen_inline _ (by simpa using le_trans (le_of_eq hmod) hn)]
  simp only [bind, Except.bind, hmod,
    show (decide ((5 : Nat) ≠ 5)) = false from rfl, if_false]
  rw [if_neg (by simp [hcnt])]
  apply decodeInnerF_dup fields entries _ (0xa0 + entries.length)
    [entries.length] [] 0 fields.length hsz hfld
    (by have := kvEntry_flatten_length_ge entries; simpa using this)
    (by simpa using hcnt)
    (by simpa using hdup)

/-- Strict decode of a definite array wire (legacy record shape) into a
record fails with the duplicated-key error whenever a key repeats. -/
theorem decodeStruct_arrayWire_dup (fields : List (List Nat))
    (entries : List (List Nat × Nat))
    (hn : 2 * entries.length ≤ 23)
    (hsz : ∀ e ∈ entries, e.1.length ≤ 23 ∧ e.2 ≤ 23)
    (hfld : ∀ e ∈ entries, e.1 ∈ fields)
    (hcnt : entries.length = fields.length)
    (hdup : ¬ (entries.map Prod.fst).Nodup) :
    ∃ key, DecodeStruct atomFieldDecoder true fields (arrayWire entries) =
      .error (.strictDupKey key) := by
  simp only [DecodeStruct, arrayWire]
  rw [parseInformation_inline _ (0x80 + 2 * entries.length)
    ((entries.map kvEntry).flatten) rfl (by omega)]
  have hmaj : (0x80 + 2 * entries.length) / 32 = 4 := by omega
  have hmod : (0x80 + 2 * entries.length) % 32 = 2 * entries.length := by omega
  simp only [bind, Except.bind, hmaj, hmod, checkTypes]
  rw [if_pos (by simp)]
  simp only [Parser.isNil, Parser.isUndef, pure, Except.pure]
  rw [if_neg (by simp; omega)]
  simp only [decodekStruct, Parser.parseHeader, hmaj, hmod, if_true]
  rw [buflen_inline _ (by simpa using le_trans (le_of_eq hmod) hn)]
  simp only [bind, Except.bind, hmod,
    show (decide ((4 : Nat) ≠ 5)) = true from rfl, if_true]
  have hdiv : 2 * entries.length / 2 = entries.length :=
    Nat.mul_div_cancel_left entries.length (by norm_num)
  simp only [hdiv]
  rw [if_neg (by simp [hcnt])]
  apply decodeInnerF_dup fields entries _ (0x80 + 2 * entries.length)
    [2 * entries.length] [] 0 fields.length hsz hfld
    (by have := kvEntry_flatten_length_ge entries; simpa using this)
    (by simpa using hcnt)
    (by simpa using hdup)

/-- Strict decode of a definite map wire into a typed string-keyed map
fails with the duplicated-key error whenever a key repeats. -/
theorem decodeMap_mapWire_dup (entries : List (List Nat × Nat))
    (hn : entries.length ≤ 23)
    (hsz : ∀ e ∈ entries, e.1.length ≤ 23 ∧ e.2 ≤ 23)
    (hdup : ¬ (entries.map Prod.fst).Nodup) :
    ∃ key, DecodeMap atomValDecoder true (mapWire entries) =
      .error (.strictDupKey key) := by
  simp only [DecodeMap, mapWire]
  rw [parseInformation_inline _ (0xa0 + entries.length)
    ((entries.map kvEntry).flatten) rfl (by omega)]
  have hmaj : (0xa0 + entries.length) / 32 = 5 := by omega
  have hmod : (0xa0 + entries.length) % 32 = entries.length := by omega
  simp only [bind, Except.bind, hmaj, hmod, checkTypes]
  rw [if_pos (by simp)]
  simp only [Parser.isNil, Parser.isUndef, pure, Except.pure]
  rw [if_neg (by simp; omega)]
  simp only [decodekMap, Parser.parseHeader, hmod]
  rw [if_pos (by omega)]
  rw [buflen_inline _ (by simpa using le_trans (le_of_eq hmod) hn)]
  simp only [bind, Except.bind, hmod]
  obtain ⟨key, hkey⟩ := decodekMapDefF_dup entries (0xa0 + entries.length)
    [entries.length] [] hsz (by simpa using hdup)
  exact ⟨key, by rw [hkey]⟩

/-- End-to-end evaluation of a Tag 5 big float with a major-1 inline
exponent (wire value `u`, decoded as `-1 - u`) and a Tag 2 bignum
mantissa: the decoder divides the mantissa by the linear multiplier
`2 * |e| = 2 * (u + 1)` rather than scaling by `2 ^ e`. -/
theorem decodeBigRat_tag5_bignum_eval (u k : Nat) (xs rest : List Nat)
    (hu : u ≤ 23) (hk : k ≤ 23) (hlen : xs.length = k) :
    DecodeBigRat (0xc5 :: 0x82 :: (0x20 + u) :: 0xc2 :: (0x40 + k) :: (xs ++ rest)) =
      .ok (.exact ((beVal xs : ℚ) / (2 * ((u : ℚ) + 1)))) := by
  simp only [DecodeBigRat]
  rw [parseInformation_inline _ 0xc5 _ rfl (by norm_num)]
  simp only [bind, Except.bind, checkTypes, show (0xc5 : Nat) / 32 = 6 from rfl]
  rw [if_pos (by simp)]
  simp only [pure, Except.pure, decodeBigFloat]
  rw [parseInformation_inline _ 0x82 _ rfl (by norm_num)]
  simp only [bind, Except.bind, show (0x82 : Nat) / 32 = 4 from rfl]
  rw [if_neg (by norm_num)]
  rw [parseInformation_inline _ (0x20 + u) _ rfl (by omega)]
  have hmaj1 : (0x20 + u) / 32 = 1 := by omega
  have hmod1 : (0x20 + u) % 32 = u := by omega
  simp only [bind, Except.bind, hmaj1]
  rw [if_neg (by omega)]
  simp only [Parser.decodeInt]
  rw [buflen_inline _ (by simpa [hmod1] using hu)]
  simp only [bind, Except.bind, hmod1]
  rw [parseInformation_inline _ 0xc2 _ rfl (by norm_num)]
  simp only [bind, Except.bind, show (0xc2 : Nat) / 32 = 6 from rfl,
    show (0xc2 : Nat) % 32 = 2 from rfl]
  rw [if_neg (by norm_num)]
  rw [if_neg (by norm_num), if_neg (by norm_num), if_pos trivial]
  rw [decodePositiveBigNum_ok _ k xs rest hk rfl hlen]
  simp only [bind, Except.bind, bigFloatToRatFromBigInt]
  have habs : ((-1 : Int) - (u : Int)).natAbs = u + 1 := by omega
  rw [if_neg (by omega)]
  simp only [habs]
  congr 2
  push_cast
  ring

/-! ## Claim theorems -/

/-- **C1** (code bug): round-trip fails for `big.Rat`.  Encoding the
rational `3/2` goes through `r.Float64() = 1.5` and
`math.Frexp(1.5) = (0.75, 1)`; `composeBigFloat` therefore emits the
exponent item `0x01` followed by a float64 mantissa item
(`0xFB` + bits of `0.75`), and `decodeBigFloat` rejects that mantissa
item (major 7) with the tag-content error instead of returning `3/2`. -/
theorem bigRat_roundtrip_fails :
    (ComposerSt.composeBigFloat ⟨false, false⟩ 1 0x3FE8000000000000 >>=
        DecodeBigRat) = .error (.badMantissa 7) := rfl

/-- **C2** (code bug): a header byte with major 6 and additional info 28
(`0xDC`) is routed to the `parseTagInformation` stub, so
`parseInformation` succeeds with the zero values `(0, 0)` instead of
returning the invalid-additional-info parse error. -/
theorem parseInformation_tag_badInfo_succeeds :
    (0xdc : Nat) / 32 = 6 ∧ (0xdc : Nat) % 32 = 28 ∧
    Parser.parseInformation ⟨0, [0xdc], false, [], 0⟩ =
      .ok (0, 0, ⟨0xdc, [], false, [], 0⟩) :=
  ⟨rfl, rfl, rfl⟩

/-- **C3** (amended): typed decoding of a well-formed bignum item into a
big-integer destination returns `bytes_BE` when the destination's prior
value is non-negative and `-1 - bytes_BE` when it is negative; the wire
tag id (2 or 3) is parsed but never consulted for the sign. -/
theorem decodeBigInt_uses_destination_sign (prior : Int) (tag k : Nat)
    (xs rest : List Nat) (htag : tag = 2 ∨ tag = 3) (hk : k ≤ 23)
    (hlen : xs.length = k) :
    DecodeBigInt prior ((0xc0 + tag) :: (0x40 + k) :: (xs ++ rest)) =
      .ok (if prior < 0 then -1 - (beVal xs : Int) else (beVal xs : Int)) := by
  have htag23 : tag ≤ 23 := by rcases htag with h | h <;> omega
  simp only [DecodeBigInt]
  rw [parseInformation_inline _ (0xc0 + tag) ((0x40 + k) :: (xs ++ rest)) rfl
    (by omega)]
  have hmaj : (0xc0 + tag) / 32 = 6 := by omega
  simp only [bind, Except.bind, hmaj, checkTypes]
  rw [if_pos (by simp)]
  simp only [pure, Except.pure]
  by_cases hp : prior < 0
  · rw [if_pos hp, if_pos hp]
    rw [decodeNegativeBigNum_ok _ k xs rest hk rfl hlen]
    simp only [bind, Except.bind]
    congr 1
    ring
  · rw [if_neg hp, if_neg hp]
    rw [decodePositiveBigNum_ok _ k xs rest hk rfl hlen]

/-- Witness for C3: tag 2 into a destination holding `-1` yields `-6`,
and tag 3 into a destination holding `0` yields `+5`, for the payload
byte `0x05`. -/
theorem decodeBigInt_uses_destination_sign_witness :
    DecodeBigInt (-1) ((0xc0 + 2) :: (0x40 + 1) :: ([5] ++ [])) = .ok (-6) ∧
    DecodeBigInt 0 ((0xc0 + 3) :: (0x40 + 1) :: ([5] ++ [])) = .ok 5 := by
  constructor
  · have h := decodeBigInt_uses_destination_sign (-1) 2 1 [5] []
      (Or.inl rfl) (by norm_num) rfl
    simpa [beVal] using h
  · have h := decodeBigInt_uses_destination_sign 0 3 1 [5] []
      (Or.inr rfl) (by norm_num) rfl
    simpa [beVal] using h

/-- Counterexample for C3 as stated: the Tag 3 item `C3 41 05` decoded
into a fresh (zero-valued, hence non-negative) big-integer destination
yields `+5`, not the claimed `-1 - 5 = -6`. -/
theorem decodeBigInt_tag3_fresh_destination_positive :
    DecodeBigInt 0 [0xc3, 0x41, 0x05] = .ok 5 ∧ (5 : Int) ≠ -1 - 5 :=
  ⟨rfl, by decide⟩

/-- **C4** (code bug): in canonical mode every NaN is emitted as
`F9 7E 00` and every infinity — negative included, for all three float
widths — as `F9 7C 00`: `encodeNewInfinity` calls the canonical helper
without the sign argument, so the claimed `F9 FC 00` pattern for `-∞` is
never produced. -/
theorem canonical_special_floats_drop_sign :
    (∀ (bits : Nat) (st negInput : Bool),
        encodeNewInfinity bits ⟨true, st⟩ negInput = .ok [0xf9, 0x7c, 0x00]) ∧
    (∀ (bits : Nat) (st : Bool),
        encodeNewNaN bits ⟨true, st⟩ = .ok [0xf9, 0x7e, 0x00]) ∧
    ([0xf9, 0x7c, 0x00] : List Nat) ≠ [0xf9, 0xfc, 0x00] :=
  ⟨fun _ _ _ => rfl, fun _ _ => rfl, by decide⟩

/-- `composeUint` never fails and always emits a header byte
`t * 32 + a` with `a ≤ 27`. -/
theorem composeUint_ok (c : ComposerSt) (i t : Nat) :
    ∃ out a, c.composeUint i t = .ok out ∧ a ≤ 27 ∧
      out.headD 0 = t * 32 + a := by
  unfold ComposerSt.composeUint
  split_ifs with h1 h2 h3 h4
  · exact ⟨[t * 32 + i], i, rfl, by omega, rfl⟩
  · refine ⟨(t * 32 + 24) :: [i % 256], 24, ?_, by omega, rfl⟩
    have h8 : c.composeUint8 i = .ok [i % 256] := by
      simp [ComposerSt.composeUint8, h1]
    rw [h8]
    rfl
  · exact ⟨_, 25, rfl, by omega, rfl⟩
  · exact ⟨_, 26, rfl, by omega, rfl⟩
  · exact ⟨_, 27, rfl, by omega, rfl⟩

/-- `composeInt` never fails and emits an integer item: its header byte
has major type 0 or 1. -/
theorem composeInt_ok (c : ComposerSt) (i : Int) :
    ∃ out, c.composeInt i = .ok out ∧ out.headD 0 / 32 ≤ 1 := by
  unfold ComposerSt.composeInt
  split_ifs with h
  · obtain ⟨out, a, hout, ha, hh⟩ := composeUint_ok c (-1 - i).toNat 1
    exact ⟨out, hout, by rw [hh]; omega⟩
  · obtain ⟨out, a, hout, ha, hh⟩ := composeUint_ok c i.toNat 0
    exact ⟨out, hout, by rw [hh]; omega⟩

/-- **C5** (amended): for every Frexp pair, `composeBigFloat` emits
`C5 82`, then an integer item for the exponent, then a float64 item
(header byte `0xFB`, major type 7) for the mantissa — never the
integer-or-bignum mantissa item the Tag 5 invariant requires. -/
theorem composeBigFloat_emits_float64_mantissa (c : ComposerSt) (fe : Int)
    (fmBits : Nat) :
    ∃ eb, c.composeInt fe = .ok eb ∧ eb.headD 0 / 32 ≤ 1 ∧
      c.composeBigFloat fe fmBits =
        .ok (0xc5 :: 0x82 :: (eb ++ 0xfb :: be8 fmBits)) ∧
      (0xfb : Nat) / 32 = 7 := by
  obtain ⟨eb, heb, hh⟩ := composeInt_ok c fe
  refine ⟨eb, heb, hh, ?_, rfl⟩
  simp [ComposerSt.composeBigFloat, heb, ComposerSt.composeFloat64, bind,
    Except.bind]

/-- Counterexample for C5 as stated: at the Frexp pair of the rational
`3/2` the emitted mantissa data item starts with `0xFB` — a major-7
float64 header, neither an integer item (major 0/1) nor a bignum tag
(`C2`/`C3`). -/
theorem composeBigFloat_mantissa_not_integer :
    ComposerSt.composeBigFloat ⟨false, false⟩ 1 0x3FE8000000000000 =
      .ok [0xc5, 0x82, 0x01, 0xfb, 0x3f, 0xe8, 0, 0, 0, 0, 0, 0] ∧
    (0xfb : Nat) / 32 ≠ 0 ∧ (0xfb : Nat) / 32 ≠ 1 ∧
    (0xfb : Nat) ≠ 0xc2 ∧ (0xfb : Nat) ≠ 0xc3 :=
  ⟨rfl, by decide, by decide, by decide, by decide⟩

/-- **C6** (code bug): `composeBigInt (-256)` emits `C3 42 01 FF`: the
final byte of `|n| = 0x01 0x00` wraps from `0x00` to `0xFF` with no
borrow, so the byte string holds the big-endian value 511 instead of
`|n| - 1 = 255`. -/
theorem composeBigInt_borrow_bug :
    ComposerSt.composeBigInt ⟨false, false⟩ (-256) =
      .ok [0xc3, 0x42, 0x01, 0xff] ∧
    beVal [0x01, 0xff] = 511 ∧ (511 : Nat) ≠ 256 - 1 := by
  refine ⟨?_, rfl, by norm_num⟩
  have h0 : natBytesBE 0 = [] := by
    rw [natBytesBE]
    simp
  have hone : natBytesBE 1 = [1] := by
    rw [natBytesBE]
    norm_num [h0]
  have h256 : natBytesBE 256 = [1, 0] := by
    rw [natBytesBE]
    norm_num [hone]
  simp [ComposerSt.composeBigInt, h256, byteDecLast, ComposerSt.composeBytes,
    ComposerSt.composeUint, bind, Except.bind]

/-- **C7** (amended): decoding a Tag 5 item whose exponent is the
major-1 inline value `u` (that is, `e = -1 - u`) and whose mantissa is a
Tag 2 bignum with payload `xs` yields the exact rational
`bytes_BE(xs) / (2 * (u + 1))` — the divisor is the linear `2 * |e|`,
not `2 ^ |e|`, so e.g. `e = -3` divides by 6 rather than 8. -/
theorem decodeBigFloat_bignum_linear_denominator (u k : Nat)
    (xs rest : List Nat) (hu : u ≤ 23) (hk : k ≤ 23) (hlen : xs.length = k) :
    DecodeBigRat (0xc5 :: 0x82 :: (0x20 + u) :: 0xc2 :: (0x40 + k) ::
        (xs ++ rest)) =
      .ok (.exact ((beVal xs : ℚ) / (2 * ((u : ℚ) + 1)))) :=
  decodeBigRat_tag5_bignum_eval u k xs rest hu hk hlen

/-- Witness for C7: wire `C5 82 21 C2 41 03` (exponent `-2`, bignum
mantissa 3) decodes to `3/4`. -/
theorem decodeBigFloat_bignum_linear_denominator_witness :
    DecodeBigRat (0xc5 :: 0x82 :: (0x20 + 1) :: 0xc2 :: (0x40 + 1) ::
        ([3] ++ [])) = .ok (.exact ((3 : ℚ) / 4)) := by
  have h := decodeBigFloat_bignum_linear_denominator 1 1 [3] []
    (by norm_num) (by norm_num) rfl
  simp only [beVal, List.foldl] at h
  norm_num at h
  exact h

/-- Counterexample for C7 as stated: the wire `C5 82 22 C2 41 03`
(exponent `-3`, bignum mantissa 3) decodes to `3/6 = 1/2`, not the
claimed `3 × 2⁻³ = 3/8` (the claim's own example: a bignum mantissa with
`e = -3` should give `m/8`, but the code gives `m/6`). -/
theorem decodeBigFloat_bignum_not_two_pow :
    DecodeBigRat [0xc5, 0x82, 0x22, 0xc2, 0x41, 0x03] =
      .ok (.exact ((1 : ℚ) / 2)) ∧
    (1 : ℚ) / 2 ≠ 3 * (2 : ℚ) ^ (-3 : ℤ) := by
  constructor
  · have h := decodeBigRat_tag5_bignum_eval 2 1 [3] []
      (by norm_num) (by norm_num) rfl
    have e1 : (0x20 + 2 : Nat) = 0x22 := by norm_num
    have e2 : (0x40 + 1 : Nat) = 0x41 := by norm_num
    rw [e1, e2] at h
    simp only [beVal, List.foldl] at h
    norm_num at h
    exact h
  · rw [show ((-3 : ℤ)) = -(3 : ℤ) from rfl, zpow_neg]
    norm_num

/-- **C9** (amended): `composeUint8` with an argument below 24 fails with
the canonical-mode error in every mode — the check never consults the
composer's canonical flag, so the violation is not downgraded in
non-canonical mode. -/
theorem composeUint8_small_always_errors (c : ComposerSt) (i : Nat)
    (h : i < 24) :
    c.composeUint8 i = .error (.canonicalSmallUint i) := by
  simp [ComposerSt.composeUint8, h]

/-- Witness for C9: the non-canonical composer refuses `5`. -/
theorem composeUint8_small_always_errors_witness :
    (5 : Nat) < 24 ∧
      ComposerSt.composeUint8 ⟨false, false⟩ 5 =
        .error (.canonicalSmallUint 5) :=
  ⟨by norm_num,
   composeUint8_small_always_errors ⟨false, false⟩ 5 (by norm_num)⟩

/-- Counterexample for C9 as stated: with the canonical flag off,
`composeUint8 5` still fails with the canonical-mode error, where the
claim requires the encode not to fail. -/
theorem composeUint8_noncanonical_still_errors :
    (ComposerSt.canonical ⟨false, false⟩ = false) ∧
    ComposerSt.composeUint8 ⟨false, false⟩ 5 =
      .error (.canonicalSmallUint 5) :=
  ⟨rfl, rfl⟩

/-- **C10** (confirmed): a major-0 header with inline additional info
(`A ≤ 23`) decoded into a `*uint8` destination fails with the
type-mismatch error of `checkTypes` — the expected type is wrapped in a
pointer twice, so it can never equal the destination type. -/
theorem decode_inline_uint_type_mismatch (b : Nat) (rest : List Nat)
    (hb : b ≤ 23) :
    DecodeUint8 (b :: rest) = .error (.typeMismatch 0 b) := by
  simp only [DecodeUint8]
  rw [parseInformation_inline _ b rest rfl (by omega)]
  have h1 : b / 32 = 0 := by omega
  have h2 : b % 32 = b := by omega
  simp only [bind, Except.bind, h1, h2, checkTypes]
  rw [if_neg (by simp)]
  have hmap : expectedTypesMap 0 b = none := by
    unfold expectedTypesMap
    rw [if_pos rfl]
    rw [if_neg (by omega), if_neg (by omega), if_neg (by omega),
      if_neg (by omega)]
  rw [hmap]
  rw [if_pos trivial, if_pos (by omega)]
  simp only [pure, Except.pure, bind, Except.bind]
  rw [if_pos (by decide)]

/-- Witness for C10: the single byte `0x05` (inline unsigned 5) fails to
decode into a `*uint8` destination. -/
theorem decode_inline_uint_type_mismatch_witness :
    (5 : Nat) ≤ 23 ∧ DecodeUint8 [0x05] = .error (.typeMismatch 0 5) :=
  ⟨by norm_num, decode_inline_uint_type_mismatch 5 [] (by norm_num)⟩

/-- Parsing a header byte with additional info 31 (indefinite) and an
allowed major type (2..5 or 7) consumes that byte, sets the indefinite
flag and leaves the scratch buffer untouched. -/
theorem parseInformation_indef (p : Parser) (h : Nat) (rest : List Nat)
    (hin : p.input = h :: rest) (hinfo : h % 32 = 31)
    (hmaj : 2 ≤ h / 32 ∧ (h / 32 ≤ 5 ∨ h / 32 = 7)) :
    p.parseInformation = .ok (h / 32, 31, ⟨h, rest, true, p.buf, 0⟩) := by
  simp only [Parser.parseInformation, Parser.scan1, Parser.scan, hin]
  simp [hinfo, bind, Except.bind]
  omega

/-- Indefinite variant of `decodeInnerF_dup`: with the indefinite flag
set, the loop never stops on the length counter, so a repeated key among
the entries (all keys naming fields, at most one more entry than there
are fields) again stops the loop with the duplicated-key error, whatever
bytes follow the entries. -/
theorem decodeInnerF_dup_indef (fields : List (List Nat)) :
    ∀ (entries : List (List Nat × Nat)) (fuel : Nat) (hdr : Nat)
      (buf0 : List Nat) (tail : List Nat) (shown : List (List Nat))
      (i nf : Nat) (length : Int),
      (∀ e ∈ entries, e.1.length ≤ 23 ∧ e.2 ≤ 23) →
      (∀ e ∈ entries, e.1 ∈ fields) →
      fuel ≥ entries.length + 1 →
      i + entries.length ≤ nf + 1 →
      ¬ ((∀ x ∈ entries.map Prod.fst, x ∉ shown) ∧
          (entries.map Prod.fst).Nodup) →
      ∃ key, decodeInnerF atomFieldDecoder true fields fuel
          ⟨hdr, (entries.map kvEntry).flatten ++ tail, true, buf0, 0⟩ shown i
          length nf = .error (.strictDupKey key)
  | [], fuel, hdr, buf0, tail, shown, i, nf, length,
      hsz, hfld, hfuel, hnf, hdup => by
      simp at hdup
  | (k, v) :: rest, fuel, hdr, buf0, tail, shown, i, nf, length,
      hsz, hfld, hfuel, hnf, hdup => by
      obtain ⟨f, rfl⟩ : ∃ f, fuel = f + 1 := ⟨fuel - 1, by simp at hfuel; omega⟩
      have hk23 : k.length ≤ 23 := (hsz (k, v) (by simp)).1
      have hv23 : v ≤ 23 := (hsz (k, v) (by simp)).2
      have hinlt : ¬ i > nf := by simp at hnf; omega
      simp only [List.map_cons, List.flatten_cons, kvEntry, strItem,
        List.cons_append, List.append_assoc, List.length_cons]
      simp only [decodeInnerF]
      rw [if_neg (by rintro ⟨-, hcon⟩; simp at hcon)]
      rw [if_neg hinlt]
      rw [parseInformation_inline _ (0x60 + k.length)
        (k ++ ([v] ++ ((rest.map kvEntry).flatten ++ tail))) rfl (by omega)]
      have hmaj : (0x60 + k.length) / 32 = 3 := by omega
      have hmod : (0x60 + k.length) % 32 = k.length := by omega
      simp only [bind, Except.bind, hmaj, hmod]
      rw [if_neg (by simp [Parser.isBreak]; omega)]
      rw [if_neg (by omega)]
      rw [decodeBytes_definite _ k.length k
        ([v] ++ ((rest.map kvEntry).flatten ++ tail))
        (by simpa using hmod) hk23 (by simp; omega) (by simp; omega) rfl rfl rfl]
      simp only [bind, Except.bind]
      by_cases hmem : k ∈ shown
      · rw [if_pos ⟨trivial, hmem⟩]
        exact ⟨k, rfl⟩
      · rw [if_neg (by simp [hmem])]
        have hfd : k ∈ fields := hfld (k, v) (by simp)
        simp only [if_pos hfd, if_pos rfl]
        rw [List.singleton_append]
        rw [parseInformation_inline _ v ((rest.map kvEntry).flatten ++ tail)
          rfl (by omega)]
        simp only [bind, Except.bind, atomFieldDecoder]
        apply decodeInnerF_dup_indef fields rest f v [v % 32] tail (k :: shown)
          (i + 1) nf (length - 1)
        · exact fun e he => hsz e (by simp [he])
        · exact fun e he => hfld e (by simp [he])
        · simp at hfuel; omega
        · simp at hnf; omega
        · intro hcon
          apply hdup
          obtain ⟨hdisj, hnd⟩ := hcon
          constructor
          · intro x hx
            simp at hx
            rcases hx with rfl | hx
            · exact hmem
            · have := hdisj x (by simpa using hx)
              simp at this
              exact this.2
          · simp only [List.map_cons, List.nodup_cons]
            refine ⟨?_, hnd⟩
            intro hkmem
            have := hdisj k (by simpa using hkmem)
            simp at this

/-- Indefinite variant of `decodekMapDefF_dup`: the indefinite map loop
forwards any non-`io.EOF` error from `generateKeyValue`, so a repeated
key among the entries stops it with the duplicated-key error, whatever
bytes follow the entries. -/
theorem decodekMapIndF_dup :
    ∀ (entries : List (List Nat × Nat)) (fuel : Nat) (hdr : Nat)
      (buf0 : List Nat) (tail : List Nat) (ind : Bool)
      (m : List (List Nat)),
      (∀ e ∈ entries, e.1.length ≤ 23 ∧ e.2 ≤ 23) →
      fuel ≥ entries.length + 1 →
      ¬ ((∀ x ∈ entries.map Prod.fst, x ∉ m) ∧
          (entries.map Prod.fst).Nodup) →
      ∃ key, decodekMapIndF atomValDecoder true fuel m
          ⟨hdr, (entries.map kvEntry).flatten ++ tail, ind, buf0, 0⟩ =
        .error (.strictDupKey key)
  | [], fuel, hdr, buf0, tail, ind, m, hsz, hfuel, hdup => by simp at hdup
  | (k, v) :: rest, fuel, hdr, buf0, tail, ind, m, hsz, hfuel, hdup => by
      obtain ⟨f, rfl⟩ : ∃ f, fuel = f + 1 := ⟨fuel - 1, by simp at hfuel; omega⟩
      have hk23 : k.length ≤ 23 := (hsz (k, v) (by simp)).1
      have hv23 : v ≤ 23 := (hsz (k, v) (by simp)).2
      simp only [List.map_cons, List.flatten_cons, kvEntry, strItem,
        List.cons_append, List.append_assoc, List.length_cons]
      simp only [decodekMapIndF, generateKeyValue]
      rw [parseInformation_inline _ (0x60 + k.length)
        (k ++ ([v] ++ ((rest.map kvEntry).flatten ++ tail))) rfl (by omega)]
      simp only [bind, Except.bind]
      rw [if_neg (by simp [Parser.isBreak]; omega)]
      have hmod : (0x60 + k.length) % 32 = k.length := by omega
      rw [decodeBytes_definite _ k.length k
        ([v] ++ ((rest.map kvEntry).flatten ++ tail))
        (by simpa using hmod) hk23 (by simp; omega) (by simp; omega) rfl rfl rfl]
      simp only [bind, Except.bind]
      by_cases hmem : k ∈ m
      · rw [if_pos ⟨trivial, hmem⟩]
        exact ⟨k, by simp⟩
      · rw [if_neg (by simp [hmem])]
        rw [List.singleton_append]
        rw [parseInformation_inline _ v ((rest.map kvEntry).flatten ++ tail)
          rfl (by omega)]
        simp only [bind, Except.bind, atomValDecoder]
        rw [if_neg hmem]
        apply decodekMapIndF_dup rest f v [v % 32] tail ind (m ++ [k])
        · exact fun e he => hsz e (by simp [he])
        · simp at hfuel; omega
        · intro hcon
          apply hdup
          obtain ⟨hdisj, hnd⟩ := hcon
          constructor
          · intro x hx
            simp at hx
            rcases hx with rfl | hx
            · exact hmem
            · have := hdisj x (by simpa using hx)
              simp at this
              exact this.1
          · simp only [List.map_cons, List.nodup_cons]
            refine ⟨?_, hnd⟩
            intro hkmem
            have := hdisj k (by simpa using hkmem)
            simp at this

/-- Strict decode of an indefinite map wire into a record fails with the
duplicated-key error whenever a key repeats (all keys naming fields, at
most as many entries as fields). -/
theorem decodeStruct_mapWireIndef_dup (fields : List (List Nat))
    (entries : List (List Nat × Nat))
    (hsz : ∀ e ∈ entries, e.1.length ≤ 23 ∧ e.2 ≤ 23)
    (hfld : ∀ e ∈ entries, e.1 ∈ fields)
    (hcnt : entries.length ≤ fields.length)
    (hdup : ¬ (entries.map Prod.fst).Nodup) :
    ∃ key, DecodeStruct atomFieldDecoder true fields (mapWireIndef entries) =
      .error (.strictDupKey key) := by
  simp only [DecodeStruct, mapWireIndef]
  rw [parseInformation_indef _ 0xbf ((entries.map kvEntry).flatten ++ [0xff])
    rfl (by norm_num) (by norm_num)]
  simp only [bind, Except.bind, show (0xbf : Nat) / 32 = 5 from rfl, checkTypes]
  rw [if_pos (by simp)]
  simp only [Parser.isNil, Parser.isUndef, pure, Except.pure]
  rw [if_neg (by simp)]
  simp only [decodekStruct, Parser.parseHeader,
    show (0xbf : Nat) / 32 = 5 from rfl]
  rw [if_neg (by simp)]
  simp only [bind, Except.bind]
  apply decodeInnerF_dup_indef fields entries _ 0xbf [] [0xff] [] 0
    fields.length 0 hsz hfld
    (by have := kvEntry_flatten_length_ge entries; simp only [List.length_append, List.length_cons, List.length_nil]; omega)
    (by omega)
    (by simpa using hdup)

/-- Strict decode of an indefinite array wire (legacy record shape) into
a record fails with the duplicated-key error whenever a key repeats. -/
theorem decodeStruct_arrayWireIndef_dup (fields : List (List Nat))
    (entries : List (List Nat × Nat))
    (hsz : ∀ e ∈ entries, e.1.length ≤ 23 ∧ e.2 ≤ 23)
    (hfld : ∀ e ∈ entries, e.1 ∈ fields)
    (hcnt : entries.length ≤ fields.length)
    (hdup : ¬ (entries.map Prod.fst).Nodup) :
    ∃ key, DecodeStruct atomFieldDecoder true fields (arrayWireIndef entries) =
      .error (.strictDupKey key) := by
  simp only [DecodeStruct, arrayWireIndef]
  rw [parseInformation_indef _ 0x9f ((entries.map kvEntry).flatten ++ [0xff])
    rfl (by norm_num) (by norm_num)]
  simp only [bind, Except.bind, show (0x9f : Nat) / 32 = 4 from rfl, checkTypes]
  rw [if_pos (by simp)]
  simp only [Parser.isNil, Parser.isUndef, pure, Except.pure]
  rw [if_neg (by simp)]
  simp only [decodekStruct, Parser.parseHeader,
    show (0x9f : Nat) / 32 = 4 from rfl]
  rw [if_neg (by simp)]
  simp only [bind, Except.bind]
  apply decodeInnerF_dup_indef fields entries _ 0x9f [] [0xff] [] 0
    fields.length 0 hsz hfld
    (by have := kvEntry_flatten_length_ge entries; simp only [List.length_append, List.length_cons, List.length_nil]; omega)
    (by omega)
    (by simpa using hdup)

/-- Strict decode of an indefinite map wire into a typed string-keyed map
fails with the duplicated-key error whenever a key repeats. -/
theorem decodeMap_mapWireIndef_dup (entries : List (List Nat × Nat))
    (hsz : ∀ e ∈ entries, e.1.length ≤ 23 ∧ e.2 ≤ 23)
    (hdup : ¬ (entries.map Prod.fst).Nodup) :
    ∃ key, DecodeMap atomValDecoder true (mapWireIndef entries) =
      .error (.strictDupKey key) := by
  simp only [DecodeMap, mapWireIndef]
  rw [parseInformation_indef _ 0xbf ((entries.map kvEntry).flatten ++ [0xff])
    rfl (by norm_num) (by norm_num)]
  simp only [bind, Except.bind, show (0xbf : Nat) / 32 = 5 from rfl, checkTypes]
  rw [if_pos (by simp)]
  simp only [Parser.isNil, Parser.isUndef, pure, Except.pure]
  rw [if_neg (by simp)]
  simp only [decodekMap, Parser.parseHeader,
    show (0xbf : Nat) % 32 = 31 from rfl]
  rw [if_neg (by simp)]
  apply decodekMapIndF_dup entries _ 0xbf [] [0xff] true [] hsz
    (by have := kvEntry_flatten_length_ge entries; simp only [List.length_append, List.length_cons, List.length_nil]; omega)
    (by simpa using hdup)

/-- **C8** (confirmed): in strict mode, decoding a map — definite or
indefinite, and also the legacy array shape in both lengths — into a
record whose keys repeat (all keys naming declared fields; for definite
wires the pair count matching the field count, for indefinite wires at
most as many entries as fields) fails with the duplicated-key
strict-mode error, and so does decoding a definite or indefinite map
with a repeated key into a typed string-keyed map. -/
theorem strict_mode_duplicate_key_rejected (fields : List (List Nat))
    (entries : List (List Nat × Nat))
    (hsz : ∀ e ∈ entries, e.1.length ≤ 23 ∧ e.2 ≤ 23)
    (hdup : ¬ (entries.map Prod.fst).Nodup) :
    (entries.length ≤ 23 → (∀ e ∈ entries, e.1 ∈ fields) →
      entries.length = fields.length →
      ∃ key, DecodeStruct atomFieldDecoder true fields (mapWire entries) =
        .error (.strictDupKey key)) ∧
    (2 * entries.length ≤ 23 → (∀ e ∈ entries, e.1 ∈ fields) →
      entries.length = fields.length →
      ∃ key, DecodeStruct atomFieldDecoder true fields (arrayWire entries) =
        .error (.strictDupKey key)) ∧
    (entries.length ≤ 23 →
      ∃ key, DecodeMap atomValDecoder true (mapWire entries) =
        .error (.strictDupKey key)) ∧
    ((∀ e ∈ entries, e.1 ∈ fields) → entries.length ≤ fields.length →
      ∃ key, DecodeStruct atomFieldDecoder true fields
          (mapWireIndef entries) = .error (.strictDupKey key)) ∧
    ((∀ e ∈ entries, e.1 ∈ fields) → entries.length ≤ fields.length →
      ∃ key, DecodeStruct atomFieldDecoder true fields
          (arrayWireIndef entries) = .error (.strictDupKey key)) ∧
    (∃ key, DecodeMap atomValDecoder true (mapWireIndef entries) =
      .error (.strictDupKey key)) :=
  ⟨fun hn hf hc => decodeStruct_mapWire_dup fields entries hn hsz hf hc hdup,
   fun hn hf hc => decodeStruct_arrayWire_dup fields entries hn hsz hf hc hdup,
   fun hn => decodeMap_mapWire_dup entries hn hsz hdup,
   fun hf hc => decodeStruct_mapWireIndef_dup fields entries hsz hf hc hdup,
   fun hf hc => decodeStruct_arrayWireIndef_dup fields entries hsz hf hc hdup,
   decodeMap_mapWireIndef_dup entries hsz hdup⟩

/-- Witness for C8: the record `{Fun, Amt}` and the wire pairs
`{"Fun": 1, "Fun": 2}` (field names as byte strings) trigger the
duplicated-key error in all six shapes: definite and indefinite maps and
legacy arrays into the record, and definite and indefinite maps into a
typed map. -/
theorem strict_mode_duplicate_key_rejected_witness :
    ¬ (([([70, 117, 110], 1), ([70, 117, 110], 2)].map
        (Prod.fst (α := List Nat) (β := Nat))).Nodup) ∧
    (∃ key, DecodeStruct atomFieldDecoder true
        [[70, 117, 110], [65, 109, 116]]
        (mapWire [([70, 117, 110], 1), ([70, 117, 110], 2)]) =
      .error (.strictDupKey key)) ∧
    (∃ key, DecodeStruct atomFieldDecoder true
        [[70, 117, 110], [65, 109, 116]]
        (arrayWire [([70, 117, 110], 1), ([70, 117, 110], 2)]) =
      .error (.strictDupKey key)) ∧
    (∃ key, DecodeMap atomValDecoder true
        (mapWire [([70, 117, 110], 1), ([70, 117, 110], 2)]) =
      .error (.strictDupKey key)) ∧
    (∃ key, DecodeStruct atomFieldDecoder true
        [[70, 117, 110], [65, 109, 116]]
        (mapWireIndef [([70, 117, 110], 1), ([70, 117, 110], 2)]) =
      .error (.strictDupKey key)) ∧
    (∃ key, DecodeStruct atomFieldDecoder true
        [[70, 117, 110], [65, 109, 116]]
        (arrayWireIndef [([70, 117, 110], 1), ([70, 117, 110], 2)]) =
      .error (.strictDupKey key)) ∧
    (∃ key, DecodeMap atomValDecoder true
        (mapWireIndef [([70, 117, 110], 1), ([70, 117, 110], 2)]) =
      .error (.strictDupKey key)) := by
  obtain ⟨h1, h2, h3, h4, h5, h6⟩ := strict_mode_duplicate_key_rejected
    [[70, 117, 110], [65, 109, 116]]
    [([70, 117, 110], 1), ([70, 117, 110], 2)]
    (by decide) (by decide)
  exact ⟨by decide, h1 (by decide) (by decide) (by decide),
    h2 (by decide) (by decide) (by decide), h3 (by decide),
    h4 (by decide) (by decide), h5 (by decide) (by decide), h6⟩

end Cbor
